import Mathlib

/-!
# Verification of the toolbox index-advisor core (`toolbox/utils.py`)

Shallow embedding of the analyzer and benchmark logic of the repository.

External collaborators (the `sqlparse` and `sql_metadata` parsing libraries,
the `frappe` database layer, `MariaDBIndex.get_indexes`) are represented at
their interface boundary: a `Query` carries the outputs those parsers produce
for its text, exactly as the Python objects cache them in `_parsed` /
`_d_parsed`.  Python exceptions (`IndexError` from `parse(sql)[0]` on an empty
parse result, `ValueError` from `Parser.query_type` on unsupported statements
and from tuple unpacking of `column.split(".")`) are modelled with `Except`.
-/

set_option autoImplicit false

/-- Python exceptions that can escape the embedded functions. -/
inductive PyErr where
  | indexError
  | valueError
  deriving Repr, DecidableEq

/-- A token of the `sqlparse` token tree, as consumed by
`Table.find_index_candidates_from_where_query`:
identifiers expose `get_parent_name()` and `get_name()`, `Comparison` and
`Where` are groups of tokens, `keyword` is a token whose `ttype` is `Keyword`,
and everything else (whitespace, operators, literals, DML words) is `other`. -/
inductive SqlToken where
  | ident (parent : Option String) (name : String)
  | comparison (tokens : List SqlToken)
  | keyword (value : String)
  | whereTok (tokens : List SqlToken)
  | other (text : String)

/-- A parsed statement (`sqlparse.sql.Statement`): its top-level token list. -/
def Statement := List SqlToken

/-- Query types distinguished by `sql_metadata` (`QueryType`). -/
inductive QueryTypeM where
  | select
  | insert
  | update
  | delete
  deriving Repr, DecidableEq

/-- Result of `sql_metadata.Parser(sql)`: the `query_type` property (which
raises `ValueError` on empty or unsupported statements, modelled by `none`)
and the `columns` property (all referenced columns, aliases resolved,
qualified columns rendered as `table.column`). -/
structure DStatement where
  queryType : Option QueryTypeM
  columns : List String

/-- The `Query` class.  `parseResult` is what `sqlparse.parse(sql)` returns
for this text (possibly the empty list), `dParseResult` what
`sql_metadata.Parser(sql)` yields; `cachedParsed` / `cachedD` are the
`_parsed` / `_d_parsed` attributes lazily filled by the `parsed` and
`d_parsed` properties.  `tableName` is `query.table.name` when a `table`
was attached (only the name of the attached table is ever read). -/
structure Query where
  sql : String
  occurence : Nat := 1
  tableName : Option String := none
  parseResult : List Statement
  dParseResult : DStatement
  cachedParsed : Option Statement := none
  cachedD : Option DStatement := none

/-- The `parsed` property: return the cached statement, otherwise
`parse(self.sql)[0]` — an `IndexError` when the parser produced no
statements; on success the result is cached. -/
def getParsed (q : Query) : Except PyErr Statement × Query :=
  match q.cachedParsed with
  | some st => (.ok st, q)
  | none =>
    match q.parseResult with
    | [] => (.error .indexError, q)
    | st :: _ => (.ok st, { q with cachedParsed := some st })

/-- The `d_parsed` property: return the cached `Parser` object, otherwise
construct it (construction never raises) and cache it. -/
def getDParsed (q : Query) : DStatement × Query :=
  match q.cachedD with
  | some d => (d, q)
  | none => (q.dParseResult, { q with cachedD := some q.dParseResult })

/-- `IndexCandidateType`: provenance of a candidate. -/
inductive IndexCandidateType where
  | SELECT
  | WHERE
  deriving Repr, DecidableEq

/-- The `IndexCandidate` class: a list of column names with a back-reference
to the owning query (only its text is kept here) and a provenance tag.
Python equality on this `list` subclass compares the column sequences. -/
structure IndexCandidate where
  querySql : String
  type : IndexCandidateType
  cols : List String
  deriving Repr, DecidableEq

/-- `IndexCandidate.append`: a column already present is silently ignored,
otherwise it is appended at the end. -/
def icAppend (ic : IndexCandidate) (c : String) : IndexCandidate :=
  if c ∈ ic.cols then ic else { ic with cols := ic.cols ++ [c] }

/-- Python `in` on a list of `IndexCandidate`s: membership by column-sequence
equality (list `==` ignores the extra attributes of the subclass). -/
def icMem (c : IndexCandidate) (l : List IndexCandidate) : Bool :=
  l.any fun x => decide (x.cols = c.cols)

/-- A fresh WHERE-derived candidate for a query. -/
def freshIC (q : Query) : IndexCandidate :=
  { querySql := q.sql, type := .WHERE, cols := [] }

/-- The `Table` class: opaque id plus the name resolved through the
collaborator store (`get_table_name`). -/
structure Table where
  id : String
  name : String

/-- Upper-casing of a keyword value (`str.upper`), on the character list of
the string; the SQL keywords involved are ASCII. -/
def upcase (s : String) : String :=
  String.mk (s.data.map Char.toUpper)

/-- Is this token a `Where` group? -/
def isWhereTok : SqlToken → Bool
  | .whereTok _ => true
  | _ => false

/-- Collect an identifier's column into the candidate when its table
qualification is absent or equals the table under analysis
(`get_parent_name() in {None, self.name}`); other tokens of the comparison
are skipped. -/
def compCols (tName : String) (ic : IndexCandidate) (toks : List SqlToken) : IndexCandidate :=
  toks.foldl
    (fun acc t =>
      match t with
      | .ident parent nm =>
        if parent = none ∨ parent = some tName then icAppend acc nm else acc
      | _ => acc)
    ic

/-- The AND-branch of the where walk: Python takes
`query_index_candidate[-1]` and mutates it in place when the list is
non-empty (the mutated object is then found by the `not in` check, so it is
never re-appended); with an empty list a fresh candidate is filled and
appended (the `not in` check on an empty list always succeeds). -/
def amendLast : List IndexCandidate → (IndexCandidate → IndexCandidate) → IndexCandidate →
    List IndexCandidate
  | [], g, fresh => [g fresh]
  | [x], g, _ => [g x]
  | x :: y :: xs, g, fresh => x :: amendLast (y :: xs) g fresh

/-- One step of the walk over the tokens inside the where clause(s):
a `Keyword` token whose upper-cased value is AND or OR updates the current
operator; a `Comparison` token opens a new group (OR) or extends the most
recent one (AND), with redundant exact-sequence duplicates discarded. -/
def whereStep (tName : String) (q : Query) :
    String × List IndexCandidate → SqlToken → String × List IndexCandidate
  | (op, acc), .keyword v =>
    if upcase v = "AND" ∨ upcase v = "OR" then (upcase v, acc) else (op, acc)
  | (op, acc), .comparison inner =>
    if op = "OR" then
      let ic := compCols tName (freshIC q) inner
      (op, if icMem ic acc then acc else acc ++ [ic])
    else
      (op, amendLast acc (fun last => compCols tName last inner) (freshIC q))
  | (op, acc), _ => (op, acc)

/-- The tokens of all `Where` groups of a statement, in order (the outer loop
skips every non-`Where` top-level token). -/
def whereTokens (st : Statement) : List SqlToken :=
  (st.filterMap fun t =>
    match t with
    | .whereTok ts => some ts
    | _ => none).flatten

/-- `Table.find_index_candidates_from_where_query`, given the parsed
statement of the query: walk the where-clause tokens with the current
operator initialized to AND. -/
def findIndexCandidatesFromWhereQuery (tName : String) (q : Query) (st : Statement) :
    List IndexCandidate :=
  ((whereTokens st).foldl (whereStep tName q) ("AND", [])).2

/-- Python `"a.b".split(".")` on the character list: separator pieces,
empty pieces preserved. -/
def splitOnCharAux (sep : Char) : List Char → List Char → List (List Char)
  | [], cur => [cur.reverse]
  | x :: xs, cur =>
    if x = sep then cur.reverse :: splitOnCharAux sep xs []
    else splitOnCharAux sep xs (x :: cur)

/-- `column.split(".")` as a list of strings. -/
def splitDot (s : String) : List String :=
  (splitOnCharAux '.' s.data []).map String.mk

/-- One column of `d_parsed.columns` in
`find_index_candidates_from_select_query`: an unqualified column is appended;
a qualified one is appended (stripped of its table) when the query has no
attached table or the qualification equals the attached table's name; a
column with more than one dot makes the Python tuple unpacking raise
`ValueError`. -/
def selectAppend (tblName : Option String) (ic : IndexCandidate) (column : String) :
    Except PyErr IndexCandidate :=
  match splitDot column with
  | [_] => .ok (icAppend ic column)
  | [tbl, col] =>
    .ok (match tblName with
      | none => icAppend ic col
      | some tn => if tbl = tn then icAppend ic col else ic)
  | _ => .error .valueError

/-- Fold `selectAppend` over the column list, propagating the first error. -/
def selectFold (tblName : Option String) :
    IndexCandidate → List String → Except PyErr IndexCandidate
  | ic, [] => .ok ic
  | ic, c :: rest =>
    match selectAppend tblName ic c with
    | .error e => .error e
    | .ok ic' => selectFold tblName ic' rest

/-- `Table.find_index_candidates_from_select_query`: an empty SELECT-derived
candidate for non-SELECT statements, otherwise the projected and order-by
columns of `d_parsed.columns` in order; the `query_type` property raising
(`none`) propagates. -/
def findIndexCandidatesFromSelectQuery (q : Query) :
    Except PyErr IndexCandidate × Query :=
  let p := getDParsed q
  match p.1.queryType with
  | none => (.error .valueError, p.2)
  | some t =>
    if t = QueryTypeM.select then
      (selectFold q.tableName { querySql := q.sql, type := .SELECT, cols := [] } p.1.columns, p.2)
    else
      (.ok { querySql := q.sql, type := .SELECT, cols := [] }, p.2)

/-- The loop body of `Table.find_index_candidates` for one (already
qualified) query: parse, dispatch on the presence of a `Where` token, and
merge the produced candidates into the accumulated list — where-derived
candidates only when non-empty and not already present by sequence equality,
the select-derived candidate only when non-empty (`elif ic := ...`). -/
def processQuery (tName : String) (acc : List IndexCandidate) (q : Query) :
    Except PyErr (List IndexCandidate) × Query :=
  match getParsed q with
  | (.error e, q') => (.error e, q')
  | (.ok st, q') =>
    if st.any isWhereTok then
      let cs := findIndexCandidatesFromWhereQuery tName q' st
      (.ok (cs.foldl
        (fun a c => if c.cols ≠ [] ∧ icMem c a = false then a ++ [c] else a) acc), q')
    else
      match findIndexCandidatesFromSelectQuery q' with
      | (.error e, q2) => (.error e, q2)
      | (.ok ic, q2) => (.ok (if ic.cols ≠ [] then acc ++ [ic] else acc), q2)

/-- `if qualifier and not qualifier(query): continue`. -/
def passesQualifier (qual : Option (Query → Bool)) (q : Query) : Bool :=
  match qual with
  | none => true
  | some f => f q

/-- Sequential processing of the query list.  An exception aborts the loop:
the queries already processed keep their filled parse caches, the remainder
is untouched, and no candidate list is returned. -/
def findCandidatesAux (tName : String) (qual : Option (Query → Bool))
    (acc : List IndexCandidate) :
    List Query → Except PyErr (List IndexCandidate) × List Query
  | [] => (.ok acc, [])
  | q :: rest =>
    if passesQualifier qual q then
      match processQuery tName acc q with
      | (.error e, q') => (.error e, q' :: rest)
      | (.ok acc', q') =>
        let p := findCandidatesAux tName qual acc' rest
        (p.1, q' :: p.2)
    else
      let p := findCandidatesAux tName qual acc rest
      (p.1, q :: p.2)

/-- `Table.find_index_candidates`: the candidate list (or the propagated
exception) together with the query objects as left after the run. -/
def findIndexCandidates (t : Table) (qs : List Query) (qual : Option (Query → Bool)) :
    Except PyErr (List IndexCandidate) × List Query :=
  findCandidatesAux t.name qual [] qs

/-- Modelled from the spec: `MariaDBIndex.get_indexes(table_name, reduce=True)`
lives in `toolbox.doctypes`, which is not part of the analyzed sources.  Per
the spec's interface contract it returns, for a table name, the ordered list
of existing index definitions reduced to their column sequences; a table with
no index records yields the empty list. -/
structure IndexStore where
  getIndexes : String → List (List String)

/-- `Table.qualify_index_candidates`: keep the input candidates that are not
(`not in`, i.e. by column-sequence equality) among the table's existing index
definitions. -/
def qualifyIndexCandidates (store : IndexStore) (t : Table)
    (ics : List IndexCandidate) : List IndexCandidate :=
  ics.filter fun ic => decide (ic.cols ∉ store.getIndexes t.name)

/-! ## `Query.get_sample`: placeholder substitution

The substitution logic operates on the character list of the statement text:
Python's `str.replace` (leftmost, non-overlapping, global) and
`re.findall(r"\%\([\w]*\)s", sql)`.  The final `sqlparse.format(...,
strip_whitespace=True, keyword_case="upper")` call is an external library
function and is abstracted as a parameter `fmt`. -/

/-- `\w` of the pattern, for the ASCII texts at hand. -/
def wordChar (c : Char) : Bool :=
  c.isAlphanum || c = '_'

/-- Try to match the pattern `\%\([\w]*\)s` at the head of the text; on
success return the matched marker and the rest of the text. -/
def matchNamed : List Char → Option (List Char × List Char)
  | '%' :: '(' :: rest =>
    match rest.dropWhile wordChar with
    | ')' :: 's' :: tail =>
      some ('%' :: '(' :: (rest.takeWhile wordChar ++ [')', 's']), tail)
    | _ => none
  | _ => none

/-- `re.findall`: scan left to right, non-overlapping (fuelled recursion, the
fuel is an upper bound on the text length so it never runs out). -/
def findallGo : Nat → List Char → List (List Char)
  | 0, _ => []
  | _ + 1, [] => []
  | fuel + 1, c :: rest =>
    match matchNamed (c :: rest) with
    | some (m, tail) => m :: findallGo fuel tail
    | none => findallGo fuel rest

/-- `PARAMS_PATTERN.findall(sql)`. -/
def findallNamed (s : List Char) : List (List Char) :=
  findallGo s.length s

/-- `str.replace`: replace every leftmost non-overlapping occurrence of
`pat` by `rep` (fuelled recursion; the fuel is an upper bound on the text
length). -/
def replaceGo (pat rep : List Char) : Nat → List Char → List Char
  | 0, s => s
  | _ + 1, [] => []
  | fuel + 1, c :: rest =>
    if pat.isPrefixOf (c :: rest) then
      rep ++ replaceGo pat rep fuel ((c :: rest).drop pat.length)
    else
      c :: replaceGo pat rep fuel rest

/-- `s.replace(pat, rep)` for a non-empty pattern (the only patterns used are
`"%s"` and regex matches, all non-empty; an empty pattern is returned
unchanged here). -/
def replaceAllL (pat rep s : List Char) : List Char :=
  if pat.isEmpty then s else replaceGo pat rep s.length s

/-- Python's `pat in s` substring test. -/
def hasSubstr (pat : List Char) : List Char → Bool
  | [] => pat.isEmpty
  | c :: rest => pat.isPrefixOf (c :: rest) || hasSubstr pat rest

/-- The positional marker `"%s"`. -/
def pctS : List Char := ['%', 's']

/-- The substitution performed by `Query.get_sample` before formatting:
when the text contains `"%s"`, every occurrence of `"%s"` is replaced by
`"1"`; otherwise every match of `PARAMS_PATTERN` found in the original text
is globally replaced by `"1"`, in match order. -/
def substituteParams (s : List Char) : List Char :=
  if hasSubstr pctS s then replaceAllL pctS ['1'] s
  else (findallNamed s).foldl (fun acc k => replaceAllL k ['1'] acc) s

/-- `Query.get_sample`, with the external `sqlparse.format` reformatting
step abstracted as `fmt`. -/
def getSampleText (fmt : List Char → List Char) (sql : List Char) : List Char :=
  fmt (substituteParams sql)

/-- `get_sample` on a `Query`. -/
def getSample (fmt : List Char → List Char) (q : Query) : List Char :=
  getSampleText fmt q.sql.data

/-! ## `QueryBenchmark.compare_results` and `get_unchanged_results`

A plan row holds the `flt`-converted values of the `r_rows`, `r_filtered`
and `Extra` columns of one row source of an `ANALYZE` result (`flt` of the
non-numeric `Extra` string is `0`); rationals stand in for Python floats.

`compare_results` allocates its result grid as
`[[{...}] * len(before)] * len(before)`: list multiplication repeats
references, so every slot of the grid aliases one single
`{"before": defaultdict(dict), "after": defaultdict(dict)}` cell, and each
loop iteration overwrites the keys of that shared cell.  A missing key of
one of the defaultdicts reads as an empty dict (`none` here). -/

/-- One row source of an `ANALYZE` plan, after `flt` conversion. -/
structure PlanRow where
  r_rows : Rat
  r_filtered : Rat
  extra : Rat
  deriving Repr, DecidableEq

/-- The three keys written into one of the shared cell's defaultdicts;
`none` models a key never written (reading it yields an empty dict). -/
structure MetricMap where
  r_rows : Option Rat
  r_filtered : Option Rat
  extra : Option Rat
  deriving Repr, DecidableEq

/-- The single shared `{"before": ..., "after": ...}` cell. -/
structure Cell where
  before : MetricMap
  after : MetricMap
  deriving Repr, DecidableEq

/-- The cell as allocated: both defaultdicts empty. -/
def initialCell : Cell :=
  ⟨⟨none, none, none⟩, ⟨none, none, none⟩⟩

/-- One `(i, j)` iteration: overwrite all three keys of both defaultdicts of
the shared cell with the values of this before/after row pair. -/
def writeCell (_ : Cell) (br ar : PlanRow) : Cell :=
  ⟨⟨some br.r_rows, some br.r_filtered, some br.extra⟩,
   ⟨some ar.r_rows, some ar.r_filtered, some ar.extra⟩⟩

/-- The inner loop over `zip(before_data, after_data)`: the write
`results[i][j][...]` raises `IndexError` as soon as the row index `j`
reaches the inner list length `len(before)`. -/
def writeRows (n : Nat) : Cell → Nat → List (PlanRow × PlanRow) → Except Unit Cell
  | cell, _, [] => .ok cell
  | cell, j, (br, ar) :: rest =>
    if j < n then writeRows n (writeCell cell br ar) (j + 1) rest
    else .error ()

/-- The outer loop over `zip(before, after)`, threading the shared cell. -/
def sharedCell (n : Nat) : Cell → List (List PlanRow × List PlanRow) → Except Unit Cell
  | cell, [] => .ok cell
  | cell, (bd, ad) :: rest =>
    match writeRows n cell 0 (bd.zip ad) with
    | .error e => .error e
    | .ok cell' => sharedCell n cell' rest

/-- `QueryBenchmark.compare_results`: on success, a `len(before) ×
len(before)` grid in which every slot is the one shared cell. -/
def compareResults (b a : List (List PlanRow)) : Except Unit (List (List Cell)) :=
  match sharedCell b.length initialCell (b.zip a) with
  | .error e => .error e
  | .ok c => .ok (List.replicate b.length (List.replicate b.length c))

/-- Python `before > after` on the two `r_filtered` entries; both operands
are floats whenever this comparison is reached (the guard
`rows_selectivity_changed` short-circuits the never-written case, in which
both sides read as empty dicts and compare unequal to nothing). -/
def gtOpt : Option Rat → Option Rat → Bool
  | some x, some y => decide (y < x)
  | _, _ => false

/-- The per-context classification inside `get_unchanged_results`: `false`
when the row shows no measurable change (nothing changed, or the selectivity
only got worse), `true` when a change is detected. -/
def contextChanged (c : Cell) : Bool :=
  let rowsReadChanged := decide (c.before.r_rows ≠ c.after.r_rows)
  let rowsSelectivityChanged := decide (c.before.r_filtered ≠ c.after.r_filtered)
  if !rowsReadChanged && !rowsSelectivityChanged then false
  else if rowsSelectivityChanged && gtOpt c.before.r_filtered c.after.r_filtered then false
  else true

/-- `QueryBenchmark.get_unchanged_results` (materialized): the `(q_id,
context)` pairs the generator yields, where `context` is the last loop
variable of the inner loop. -/
def getUnchangedResults (b a : List (List PlanRow)) :
    Except Unit (List (Nat × Cell)) :=
  match compareResults b a with
  | .error e => .error e
  | .ok grid =>
    .ok (grid.enum.filterMap fun p =>
      if p.2.any contextChanged then none
      else p.2.getLast?.map fun c => (p.1, c))

/-- The claim's per-row-source rule: a row source shows no measurable change
exactly when neither `r_rows` nor `r_filtered` differs, or `r_filtered`
strictly decreased from before to after. -/
def rowUnchangedPerClaim (br ar : PlanRow) : Bool :=
  (decide (br.r_rows = ar.r_rows) && decide (br.r_filtered = ar.r_filtered))
    || decide (ar.r_filtered < br.r_filtered)

/-! ## Cache-blindness of qualifiers (for idempotence) -/

/-- Forget the lazily filled parse caches of a query. -/
def stripCaches (q : Query) : Query :=
  { q with cachedParsed := none, cachedD := none }

/-- A caller-supplied qualifier is cache-blind when it cannot distinguish two
query objects that differ only in their lazily filled parse caches (every
reasonable qualifier inspects the statement, not the private cache slots). -/
def CacheBlind (qual : Option (Query → Bool)) : Prop :=
  ∀ f, qual = some f → ∀ q₁ q₂, stripCaches q₁ = stripCaches q₂ → f q₁ = f q₂

/-! ## Concrete inputs

The token trees and column lists below transcribe what `sqlparse` and
`sql_metadata` produce for the statements of the repository's test suite
(`test_utils.py` pins the resulting candidate lists end to end). -/

/-- The `tabNote` table of the where-clause tests. -/
def noteTable : Table :=
  { id := "note-id", name := "tabNote" }

/-- Parsed where clause of the first test statement:
`where modified = creation or creation > modified` (backticked names are
returned unquoted by `get_name()`). -/
def whereClause1 : List SqlToken :=
  [.keyword "where", .other " ",
   .comparison [.ident none "modified", .other " ", .other "=", .other " ",
     .ident none "creation"],
   .other " ", .keyword "or", .other " ",
   .comparison [.ident none "creation", .other " ", .other ">", .other " ",
     .ident none "modified"]]

/-- Top-level tokens of the first test statement. -/
def stNote1 : Statement :=
  [.other "select", .other " ", .ident none "name", .other " ",
   .keyword "from", .other " ", .ident none "tabNote", .other " ",
   .whereTok whereClause1]

/-- The first where-clause test query over `tabNote`. -/
def qNote1 : Query :=
  { sql := "select `name` from `tabNote` where `modified` = `creation` or `creation` > `modified`"
    parseResult := [stNote1]
    dParseResult := { queryType := some .select, columns := ["name", "modified", "creation"] } }

/-- Parsed where clause of the second test statement:
`where modified = creation or creation > '2023-02-13 13:35:01.556111'`
(the date literal is a plain token, not an identifier; the trailing
`order by` closes the where group). -/
def whereClause2 : List SqlToken :=
  [.keyword "where", .other " ",
   .comparison [.ident none "modified", .other " ", .other "=", .other " ",
     .ident none "creation"],
   .other " ", .keyword "or", .other " ",
   .comparison [.ident none "creation", .other " ", .other ">", .other " ",
     .other "'2023-02-13 13:35:01.556111'"]]

/-- Top-level tokens of the second test statement, `order by` outside the
where group. -/
def stNote2 : Statement :=
  [.other "select", .other " ", .ident none "name", .other " ",
   .keyword "from", .other " ", .ident none "tabNote", .other " ",
   .whereTok whereClause2, .other " ",
   .keyword "order by", .other " ", .ident none "title"]

/-- The second where-clause test query over `tabNote`. -/
def qNote2 : Query :=
  { sql := "select `name` from `tabNote` where `modified` = `creation` or `creation` > '2023-02-13 13:35:01.556111' order by `title`"
    parseResult := [stNote2]
    dParseResult := { queryType := some .select, columns := ["name", "modified", "creation", "title"] } }

/-- A statement whose text yields no parse result: `sqlparse.parse("")`
returns the empty tuple, so the `parsed` property's `[0]` raises
`IndexError` (`sql_metadata`'s `query_type` would raise `ValueError`). -/
def qBad : Query :=
  { sql := ""
    parseResult := []
    dParseResult := { queryType := none, columns := [] } }

/-- The `tabQuality Goal` table of the projection tests. -/
def qgTable : Table :=
  { id := "qg-id", name := "tabQuality Goal" }

/-- Top-level tokens of the first projection test statement (no where
clause). -/
def stQG1 : Statement :=
  [.other "select", .other " ",
   .ident none "name", .other ",", .ident none "frequency", .other ",",
   .ident none "date", .other ",", .ident none "weekday", .other " ",
   .keyword "from", .other " ", .ident none "tabQuality Goal", .other " ",
   .keyword "order by", .other " ",
   .ident (some "tabQuality Goal") "modified", .other " DESC"]

/-- `select name, frequency, date, weekday from tabQualityGoal order by
tabQualityGoal.modified DESC`, with the table attached to the query;
`sql_metadata` lists the projected columns then the order-by column. -/
def qQG1 : Query :=
  { sql := "select `name`, `frequency`, `date`, `weekday` from `tabQuality Goal` order by `tabQuality Goal`.`modified` DESC"
    tableName := some "tabQuality Goal"
    parseResult := [stQG1]
    dParseResult :=
      { queryType := some .select
        columns := ["name", "frequency", "date", "weekday", "tabQuality Goal.modified"] } }

/-- Top-level tokens of the aliased projection test statement. -/
def stQG2 : Statement :=
  [.other "select", .other " ", .ident none "name", .other " as aliased_name ",
   .keyword "from", .other " ", .ident none "tabQuality Goal", .other " ",
   .keyword "order by", .other " ",
   .ident (some "tabQuality Goal") "modified", .other " DESC"]

/-- `select name as aliased_name from tabQualityGoal order by
tabQualityGoal.modified DESC`: `sql_metadata` resolves the alias to the
underlying column `name`. -/
def qQG2 : Query :=
  { sql := "select `name` as `aliased_name` from `tabQuality Goal` order by `tabQuality Goal`.`modified` DESC"
    tableName := some "tabQuality Goal"
    parseResult := [stQG2]
    dParseResult :=
      { queryType := some .select
        columns := ["name", "tabQuality Goal.modified"] } }

/-- First candidate's plan row before: 10 rows examined, selectivity 50. -/
def c1Row0b : PlanRow := ⟨10, 50, 0⟩

/-- First candidate's plan row after: 1 row examined, selectivity 100 — a
clear improvement. -/
def c1Row0a : PlanRow := ⟨1, 100, 0⟩

/-- Second candidate's plan row, identical before and after. -/
def c1Row1 : PlanRow := ⟨5, 50, 0⟩

/-- Before capture: candidate 0 with an improving plan, candidate 1
unchanged. -/
def c1Before : List (List PlanRow) := [[c1Row0b], [c1Row1]]

/-- After capture for `c1Before`. -/
def c1After : List (List PlanRow) := [[c1Row0a], [c1Row1]]

/-- The one cell every grid slot aliases after comparing `c1Before` and
`c1After`: the metrics of the last row of the last candidate. -/
def c1FinalCell : Cell :=
  ⟨⟨some 5, some 50, some 0⟩, ⟨some 5, some 50, some 0⟩⟩

/-- A plan row for the out-of-range input of the totality claim. -/
def c10Row : PlanRow := ⟨1, 100, 0⟩

/-- One candidate whose plan has two row sources: the second write hits row
index `1` of an inner list of length `1`. -/
def c10Bad : List (List PlanRow) := [[c10Row, c10Row]]

/-- A statement mixing a positional and a named placeholder. -/
def sqlMixed : List Char :=
  "select 1 from tab where a = %s and b = %(b)s".data

/-- A statement with only positional placeholders. -/
def sqlPos : List Char :=
  "select 1 from tab where a = %s and b = %s".data

/-- A demonstration candidate for qualification. -/
def icDemo : IndexCandidate :=
  { querySql := "select 1", type := .WHERE, cols := ["a"] }

/-- A store with no index records for any table. -/
def store0 : IndexStore :=
  ⟨fun _ => []⟩

/-- Every candidate of the list has a duplicate-free column sequence. -/
def AllNodup (l : List IndexCandidate) : Prop :=
  ∀ ic ∈ l, ic.cols.Nodup

/-! ## Theorems -/

/-- Claim C3: for the statement with filter
`WHERE modified = creation OR creation > modified`, filter-clause extraction
over table `Note` returns exactly the two candidate groups
`[[modified, creation], [creation, modified]]` in that order: the OR splits
the two comparisons into independent groups, operand order within each
comparison is preserved, and the groups are not set-deduplicated against
each other. -/
theorem where_extraction_or_split_note :
    (findIndexCandidates noteTable [qNote1] none).1 =
      .ok [{ querySql := qNote1.sql, type := .WHERE, cols := ["modified", "creation"] },
           { querySql := qNote1.sql, type := .WHERE, cols := ["creation", "modified"] }] :=
  rfl

/-- Claim C6: for the statement with filter
`WHERE modified = creation OR creation > '2023-02-13 13:35:01.556111'
ORDER BY title`, extraction over table `Note` returns exactly
`[[modified, creation], [creation]]`: the date literal contributes no
column and the order-by column `title` is not merged into any
filter-derived candidate. -/
theorem where_extraction_literal_orderby_note :
    (findIndexCandidates noteTable [qNote2] none).1 =
      .ok [{ querySql := qNote2.sql, type := .WHERE, cols := ["modified", "creation"] },
           { querySql := qNote2.sql, type := .WHERE, cols := ["creation"] }] :=
  rfl

/-- Claim C5: for a SELECT with no filter clause, extraction returns a single
projection-derived candidate listing, in order, every projected column
followed by every order-by column, aliases resolved to the underlying
column: the plain projection yields
`[name, frequency, date, weekday, modified]` and the aliased one yields
`[name, modified]`, not the alias. -/
theorem select_extraction_projection_quality_goal :
    (findIndexCandidates qgTable [qQG1, qQG2] none).1 =
      .ok [{ querySql := qQG1.sql, type := .SELECT,
             cols := ["name", "frequency", "date", "weekday", "modified"] },
           { querySql := qQG2.sql, type := .SELECT, cols := ["name", "modified"] }] :=
  rfl

/-- Claim C2, counterexample: a batch containing an unparseable statement
(empty text: `sqlparse.parse` yields no statement) makes
`find_index_candidates` propagate the failure (`IndexError` from
`parse(sql)[0]`) instead of skipping the statement — the same batch without
the offending statement would have produced candidates. -/
theorem find_candidates_parse_failure_cex :
    (findIndexCandidates noteTable [qNote1, qBad] none).1 = .error .indexError ∧
    (findIndexCandidates noteTable [qNote1] none).1 =
      .ok [{ querySql := qNote1.sql, type := .WHERE, cols := ["modified", "creation"] },
           { querySql := qNote1.sql, type := .WHERE, cols := ["creation", "modified"] }] :=
  ⟨rfl, rfl⟩

/-- Claim C2, amended: `Table.find_index_candidates` contains no handler for
parse failures — whenever any statement of the batch that passes the
qualifier has unparseable text (no cached parse and an empty parser result),
the whole extraction aborts with the propagated exception and no candidate
list is returned; the skip-on-failure behaviour exists only in the ingestion
loop (`process_sql_metadata_chunk`), not here. -/
theorem find_candidates_parse_failure_amended (t : Table) (qs : List Query)
    (qual : Option (Query → Bool)) (q : Query) (hmem : q ∈ qs)
    (hqual : passesQualifier qual q = true) (hcache : q.cachedParsed = none)
    (hparse : q.parseResult = []) :
    ((findIndexCandidates t qs qual).1).isOk = false := by
  have main : ∀ (l : List Query) (acc : List IndexCandidate), q ∈ l →
      ((findCandidatesAux t.name qual acc l).1).isOk = false := by
    intro l
    induction l with
    | nil => intro acc h; cases h
    | cons q0 rest ih =>
      intro acc h
      rcases List.mem_cons.mp h with hq | hq
      · subst hq
        simp only [findCandidatesAux, hqual, if_true]
        simp [processQuery, getParsed, hcache, hparse, Except.isOk, Except.toBool]
      · by_cases hp : passesQualifier qual q0 = true
        · rcases hpq : processQuery t.name acc q0 with ⟨r, q0'⟩
          cases r with
          | error e => simp [findCandidatesAux, hp, hpq, Except.isOk, Except.toBool]
          | ok acc' => simp [findCandidatesAux, hp, hpq, ih acc' hq]
        · simp [findCandidatesAux, hp, ih acc hq]
  exact main qs [] hmem

/-- Witness for the amended C2 at a concrete batch. -/
theorem find_candidates_parse_failure_amended_witness :
    ((findIndexCandidates noteTable [qBad] none).1).isOk = false :=
  find_candidates_parse_failure_amended noteTable [qBad] none qBad
    (List.mem_singleton.mpr rfl) rfl rfl rfl

/-- Claim C8: qualification returns exactly the input candidates, in input
order (a sublist of the input), whose column sequence is not
element-for-element equal to an existing index's column sequence —
exact-sequence exclusion only — and when the store reports no index records
for the table every input candidate is returned. -/
theorem qualify_index_candidates_spec (store : IndexStore) (t : Table)
    (ics : List IndexCandidate) :
    List.Sublist (qualifyIndexCandidates store t ics) ics ∧
    (∀ ic, ic ∈ qualifyIndexCandidates store t ics ↔
      ic ∈ ics ∧ ic.cols ∉ store.getIndexes t.name) ∧
    (store.getIndexes t.name = [] → qualifyIndexCandidates store t ics = ics) := by
  refine ⟨List.filter_sublist _, fun ic => ?_, fun h => ?_⟩
  · simp [qualifyIndexCandidates]
  · simp [qualifyIndexCandidates, h]

/-- Witness for C8: with no index records, the candidate passes through. -/
theorem qualify_index_candidates_spec_witness :
    qualifyIndexCandidates store0 noteTable [icDemo] = [icDemo] :=
  (qualify_index_candidates_spec store0 noteTable [icDemo]).2.2 rfl

/-- Claim C1 (code bug): the result grid of `compare_results` is built with
list multiplication, so every slot aliases one shared cell holding the
metrics of the last row of the last candidate.  On the input below,
candidate 0's single row source clearly improves (`r_rows` 10 → 1,
`r_filtered` 50 → 100), yet `get_unchanged_results` yields both candidates
— every context it inspects shows candidate 1's unchanged metrics — while
the claimed per-candidate rule classifies candidate 0's row as changed. -/
theorem benchmark_unchanged_aliasing_eval :
    getUnchangedResults c1Before c1After = .ok [(0, c1FinalCell), (1, c1FinalCell)] ∧
    rowUnchangedPerClaim c1Row0b c1Row0a = false :=
  ⟨rfl, by decide⟩

/-- Claim C10: `compare_results` returns normally whenever each captured
plan has at most as many row sources as there are candidates (the inner
lists of the aliased grid have length `len(before)`), and fails with an
out-of-range access on a concrete input in which one candidate's plan has
more row sources than there are candidates. -/
theorem compare_results_totality :
    (∀ b a : List (List PlanRow), (∀ x ∈ b, x.length ≤ b.length) →
      (∀ y ∈ a, y.length ≤ b.length) → (compareResults b a).isOk = true) ∧
    compareResults c10Bad c10Bad = .error () := by
  have hwrite : ∀ (n : Nat) (l : List (PlanRow × PlanRow)) (cell : Cell) (j : Nat),
      j + l.length ≤ n → ∃ c, writeRows n cell j l = .ok c := by
    intro n l
    induction l with
    | nil => intro cell j _; exact ⟨cell, rfl⟩
    | cons p rest ih =>
      intro cell j hj
      rcases p with ⟨br, ar⟩
      have hj' : j + (rest.length + 1) ≤ n := by simpa using hj
      have hjn : j < n := by omega
      rcases ih (writeCell cell br ar) (j + 1) (by omega) with ⟨c, hc⟩
      exact ⟨c, by simp [writeRows, hjn, hc]⟩
  have hshared : ∀ (n : Nat) (ps : List (List PlanRow × List PlanRow)) (cell : Cell),
      (∀ p ∈ ps, (p.1.zip p.2).length ≤ n) → ∃ c, sharedCell n cell ps = .ok c := by
    intro n ps
    induction ps with
    | nil => intro cell _; exact ⟨cell, rfl⟩
    | cons p rest ih =>
      intro cell hps
      rcases p with ⟨bd, ad⟩
      rcases hwrite n (bd.zip ad) cell 0 (by simpa using hps (bd, ad) (List.mem_cons_self _ _)) with
        ⟨c1, hc1⟩
      rcases ih c1 (fun p hp => hps p (List.mem_cons_of_mem _ hp)) with ⟨c2, hc2⟩
      exact ⟨c2, by simp [sharedCell, hc1, hc2]⟩
  refine ⟨fun b a hb _ => ?_, rfl⟩
  have hbound : ∀ p ∈ b.zip a, (p.1.zip p.2).length ≤ b.length := by
    intro p hp
    have h1 : p.1 ∈ b := (List.of_mem_zip hp).1
    calc (p.1.zip p.2).length ≤ p.1.length := by simp [List.length_zip]
      _ ≤ b.length := hb p.1 h1
  rcases hshared b.length (b.zip a) initialCell hbound with ⟨c, hc⟩
  simp [compareResults, hc, Except.isOk, Except.toBool]

/-- Witness for C10 at concrete inputs: a one-candidate, one-row capture
compares fine; the two-row plan of `c10Bad` fails. -/
theorem compare_results_totality_witness :
    (compareResults [[c10Row]] [[c10Row]]).isOk = true ∧
    compareResults c10Bad c10Bad = .error () :=
  ⟨compare_results_totality.1 [[c10Row]] [[c10Row]] (by simp) (by simp),
   compare_results_totality.2⟩

/-- Destructor for a successful `"%s"` prefix test. -/
theorem isPrefixOf_pctS_true (c : Char) (l : List Char)
    (h : pctS.isPrefixOf (c :: l) = true) : c = '%' ∧ ∃ l', l = 's' :: l' := by
  cases l with
  | nil => simp [pctS, List.isPrefixOf] at h
  | cons r l' =>
    simp [pctS, List.isPrefixOf] at h
    exact ⟨h.1.symm, l', by rw [h.2]⟩

/-- The head of a `"%s" → "1"` replacement result is either the inserted
`'1'` or the head of the input. -/
theorem replaceGo_head (fuel : Nat) (s : List Char) (c : Char)
    (h : (replaceGo pctS ['1'] fuel s).head? = some c) :
    c = '1' ∨ s.head? = some c := by
  cases fuel with
  | zero => exact Or.inr h
  | succ fuel =>
    cases s with
    | nil => simp [replaceGo] at h
    | cons c0 rest =>
      by_cases hp : pctS.isPrefixOf (c0 :: rest) = true
      · left
        simp [replaceGo, hp] at h
        exact h.symm
      · right
        simp [replaceGo, hp] at h
        simpa using congrArg some h

/-- After `sql.replace("%s", "1")` no occurrence of `"%s"` remains: the
scan replaces every leftmost occurrence, and the inserted `'1'` can never
recombine with neighbouring characters into a new `"%s"`. -/
theorem replaceGo_no_pctS : ∀ (fuel : Nat) (s : List Char), s.length ≤ fuel →
    hasSubstr pctS (replaceGo pctS ['1'] fuel s) = false := by
  intro fuel
  induction fuel with
  | zero =>
    intro s hs
    have hnil : s = [] := List.eq_nil_of_length_eq_zero (Nat.le_zero.mp hs)
    subst hnil
    rfl
  | succ fuel ih =>
    intro s hs
    cases s with
    | nil => rfl
    | cons c0 rest =>
      by_cases hp : pctS.isPrefixOf (c0 :: rest) = true
      · rcases isPrefixOf_pctS_true c0 rest hp with ⟨hc0, rest2, hrest⟩
        subst hc0
        subst hrest
        have hlen : rest2.length ≤ fuel := by
          simp [List.length_cons] at hs
          omega
        have hred : replaceGo pctS ['1'] (fuel + 1) ('%' :: 's' :: rest2) =
            '1' :: replaceGo pctS ['1'] fuel rest2 := by
          simp [replaceGo, hp, pctS]
        rw [hred]
        simp only [hasSubstr]
        rw [ih rest2 hlen]
        simp [pctS, List.isPrefixOf]
      · have hlen : rest.length ≤ fuel := by
          simp [List.length_cons] at hs
          omega
        have hred : replaceGo pctS ['1'] (fuel + 1) (c0 :: rest) =
            c0 :: replaceGo pctS ['1'] fuel rest := by
          simp [replaceGo, hp]
        rw [hred]
        simp only [hasSubstr]
        rw [ih rest hlen]
        simp only [Bool.or_false]
        by_cases hpre2 : pctS.isPrefixOf (c0 :: replaceGo pctS ['1'] fuel rest) = true
        · exfalso
          rcases isPrefixOf_pctS_true _ _ hpre2 with ⟨hc0, R', hR⟩
          have hh : (replaceGo pctS ['1'] fuel rest).head? = some 's' := by
            rw [hR]; rfl
          rcases replaceGo_head fuel rest 's' hh with h1 | h1
          · exact absurd h1 (by decide)
          · apply hp
            rcases rest with _ | ⟨r0, rest'⟩
            · simp at h1
            · have hr0 : r0 = 's' := by simpa using h1
              subst hr0
              subst hc0
              simp [pctS, List.isPrefixOf]
        · exact Bool.eq_false_iff.mpr hpre2

/-- When the statement contains `"%s"`, the substituted text contains no
`"%s"` any more. -/
theorem substituteParams_no_pctS (s : List Char) (h : hasSubstr pctS s = true) :
    hasSubstr pctS (substituteParams s) = false := by
  have hsub : substituteParams s = replaceAllL pctS ['1'] s := by
    simp only [substituteParams, h, if_true]
  have hrep : replaceAllL pctS ['1'] s = replaceGo pctS ['1'] s.length s := by
    simp [replaceAllL, pctS, List.isEmpty]
  rw [hsub, hrep]
  exact replaceGo_no_pctS s.length s le_rfl

/-- Claim C7, counterexample: on a statement mixing positional and named
placeholders the positional branch is taken, so the text handed to the
formatter — and hence, e.g. under identity formatting, `get_sample`'s
result — still contains the named marker `%(b)s`: not all markers are
replaced by `1`. -/
theorem get_sample_mixed_markers_cex :
    substituteParams sqlMixed = "select 1 from tab where a = 1 and b = %(b)s".data ∧
    findallNamed (substituteParams sqlMixed) = [['%', '(', 'b', ')', 's']] ∧
    getSampleText (fun s => s) sqlMixed =
      "select 1 from tab where a = 1 and b = %(b)s".data :=
  ⟨rfl, rfl, rfl⟩

/-- Claim C7, amended: `get_sample` returns the formatter applied to the
substituted statement text; when the text contains `"%s"` every occurrence
of `"%s"` is replaced by `1` (named markers may remain); otherwise each
named marker found in the original text is globally replaced by `1`, in
match order.  Determinism is immediate: the embedding is a pure function of
the statement text. -/
theorem get_sample_amended (fmt : List Char → List Char) (sql : List Char) :
    getSampleText fmt sql = fmt (substituteParams sql) ∧
    (hasSubstr pctS sql = true → hasSubstr pctS (substituteParams sql) = false) ∧
    (hasSubstr pctS sql = false →
      substituteParams sql =
        (findallNamed sql).foldl (fun acc k => replaceAllL k ['1'] acc) sql) :=
  ⟨rfl, fun h => substituteParams_no_pctS sql h, fun h => by simp [substituteParams, h]⟩

/-- Witness for the amended C7 at a concrete positional-only statement. -/
theorem get_sample_amended_witness :
    hasSubstr pctS (substituteParams sqlPos) = false :=
  (get_sample_amended (fun s => s) sqlPos).2.1 rfl

/-- `IndexCandidate.append` preserves duplicate-freedom. -/
theorem icAppend_nodup (ic : IndexCandidate) (c : String) (h : ic.cols.Nodup) :
    (icAppend ic c).cols.Nodup := by
  unfold icAppend
  by_cases hm : c ∈ ic.cols
  · simpa [hm] using h
  · simp [hm, List.nodup_append, h]

/-- Collecting a comparison's identifiers preserves duplicate-freedom. -/
theorem compCols_nodup (tName : String) (toks : List SqlToken) :
    ∀ ic : IndexCandidate, ic.cols.Nodup → (compCols tName ic toks).cols.Nodup := by
  induction toks with
  | nil => exact fun _ h => h
  | cons t rest ih =>
    intro ic h
    cases t with
    | ident parent nm =>
      by_cases hc : parent = none ∨ parent = some tName
      · simpa [compCols, hc] using ih (icAppend ic nm) (icAppend_nodup ic nm h)
      · simpa [compCols, hc] using ih ic h
    | comparison ts => simpa [compCols] using ih ic h
    | keyword v => simpa [compCols] using ih ic h
    | whereTok ts => simpa [compCols] using ih ic h
    | other s => simpa [compCols] using ih ic h

/-- `amendLast` preserves duplicate-freedom of all candidates when the
amendment and the fresh candidate do. -/
theorem amendLast_allNodup (g : IndexCandidate → IndexCandidate) (fresh : IndexCandidate)
    (hg : ∀ ic : IndexCandidate, ic.cols.Nodup → (g ic).cols.Nodup)
    (hf : fresh.cols.Nodup) :
    ∀ acc : List IndexCandidate, AllNodup acc → AllNodup (amendLast acc g fresh) := by
  intro acc
  induction acc with
  | nil =>
    intro _ ic hic
    simp [amendLast] at hic
    subst hic
    exact hg fresh hf
  | cons x xs ih =>
    intro hacc
    cases xs with
    | nil =>
      intro ic hic
      simp [amendLast] at hic
      subst hic
      exact hg x (hacc x (by simp))
    | cons y ys =>
      intro ic hic
      simp only [amendLast, List.mem_cons] at hic
      rcases hic with hic | hic
      · subst hic
        exact hacc ic (by simp)
      · exact ih (fun j hj => hacc j (List.mem_cons_of_mem _ hj)) ic hic

/-- One step of the where walk preserves duplicate-freedom of all
accumulated candidates. -/
theorem whereStep_allNodup (tName : String) (q : Query) (st : String × List IndexCandidate)
    (tok : SqlToken) (h : AllNodup st.2) : AllNodup (whereStep tName q st tok).2 := by
  rcases st with ⟨op, acc⟩
  cases tok with
  | keyword v =>
    by_cases hc : upcase v = "AND" ∨ upcase v = "OR"
    · simpa [whereStep, hc] using h
    · simpa [whereStep, hc] using h
  | comparison inner =>
    by_cases hop : op = "OR"
    · by_cases hm : icMem (compCols tName (freshIC q) inner) acc = true
      · simpa [whereStep, hop, hm] using h
      · intro ic hic
        simp [whereStep, hop, hm] at hic
        rcases hic with hic | hic
        · exact h ic hic
        · subst hic
          exact compCols_nodup tName inner (freshIC q) (by simp [freshIC])
    · intro ic hic
      refine amendLast_allNodup (fun last => compCols tName last inner) (freshIC q)
        (fun j hj => compCols_nodup tName inner j hj) (by simp [freshIC]) acc h ic ?_
      simpa [whereStep, hop] using hic
  | ident p n => exact h
  | whereTok ts => exact h
  | other s => exact h

/-- The full where walk preserves duplicate-freedom. -/
theorem foldl_whereStep_allNodup (tName : String) (q : Query) (toks : List SqlToken) :
    ∀ st : String × List IndexCandidate, AllNodup st.2 →
      AllNodup (toks.foldl (whereStep tName q) st).2 := by
  induction toks with
  | nil => exact fun _ h => h
  | cons t rest ih =>
    intro st h
    simpa [List.foldl_cons] using ih (whereStep tName q st t) (whereStep_allNodup tName q st t h)

/-- Every candidate produced by the where-clause extraction is
duplicate-free. -/
theorem whereQuery_allNodup (tName : String) (q : Query) (st : Statement) :
    AllNodup (findIndexCandidatesFromWhereQuery tName q st) :=
  foldl_whereStep_allNodup tName q (whereTokens st) ("AND", []) (fun _ hic => nomatch hic)

/-- One select-extraction step preserves duplicate-freedom. -/
theorem selectAppend_nodup (tn : Option String) (ic : IndexCandidate) (col : String)
    (ic' : IndexCandidate) (h : selectAppend tn ic col = .ok ic') (hic : ic.cols.Nodup) :
    ic'.cols.Nodup := by
  unfold selectAppend at h
  rcases hsp : splitDot col with _ | ⟨a, _ | ⟨b, _ | _⟩⟩ <;> rw [hsp] at h <;>
    dsimp only at h
  · cases h
  · injection h with h1
    subst h1
    exact icAppend_nodup ic col hic
  · cases tn with
    | none =>
      dsimp only at h
      injection h with h1
      subst h1
      exact icAppend_nodup ic b hic
    | some t =>
      dsimp only at h
      by_cases hab : a = t
      · rw [if_pos hab] at h
        injection h with h1
        subst h1
        exact icAppend_nodup ic b hic
      · rw [if_neg hab] at h
        injection h with h1
        subst h1
        exact hic
  · cases h

/-- The select-extraction fold preserves duplicate-freedom. -/
theorem selectFold_nodup (tn : Option String) (cols : List String) :
    ∀ ic ic' : IndexCandidate, ic.cols.Nodup → selectFold tn ic cols = .ok ic' →
      ic'.cols.Nodup := by
  induction cols with
  | nil =>
    intro ic ic' h heq
    injection heq with h1
    subst h1
    exact h
  | cons c rest ih =>
    intro ic ic' h heq
    simp only [selectFold] at heq
    rcases hsa : selectAppend tn ic c with e | ic1 <;> rw [hsa] at heq
    · cases heq
    · exact ih ic1 ic' (selectAppend_nodup tn ic c ic1 hsa h) heq

/-- The candidate returned by the projection extraction is duplicate-free. -/
theorem selectQuery_nodup (q : Query) (ic : IndexCandidate) (q2 : Query)
    (h : findIndexCandidatesFromSelectQuery q = (.ok ic, q2)) : ic.cols.Nodup := by
  unfold findIndexCandidatesFromSelectQuery at h
  rcases hqt : (getDParsed q).1.queryType with _ | t <;> simp only [hqt] at h
  · injection h with h1
    cases h1
  · by_cases ht : t = QueryTypeM.select
    · rw [if_pos ht] at h
      injection h with h1
      exact selectFold_nodup q.tableName (getDParsed q).1.columns _ ic (by simp) h1
    · rw [if_neg ht] at h
      injection h with h1
      injection h1 with h1
      rw [← h1]
      simp

/-- Merging where-derived candidates into the accumulated list preserves
duplicate-freedom. -/
theorem dedupFold_allNodup (cs : List IndexCandidate) :
    ∀ acc : List IndexCandidate, AllNodup acc → AllNodup cs →
      AllNodup (cs.foldl
        (fun a c => if c.cols ≠ [] ∧ icMem c a = false then a ++ [c] else a) acc) := by
  induction cs with
  | nil => exact fun _ h _ => h
  | cons c rest ih =>
    intro acc hacc hcs
    simp only [List.foldl_cons]
    apply ih
    · by_cases hc : c.cols ≠ [] ∧ icMem c acc = false
      · rw [if_pos hc]
        intro ic hic
        rcases List.mem_append.mp hic with hic | hic
        · exact hacc ic hic
        · rw [List.mem_singleton.mp hic]
          exact hcs c (by simp)
      · rw [if_neg hc]
        exact hacc
    · exact fun ic hic => hcs ic (List.mem_cons_of_mem _ hic)

/-- Processing one query only adds duplicate-free candidates. -/
theorem processQuery_allNodup (tName : String) (acc : List IndexCandidate) (q : Query)
    (acc' : List IndexCandidate) (q' : Query)
    (h : processQuery tName acc q = (.ok acc', q')) (hacc : AllNodup acc) :
    AllNodup acc' := by
  unfold processQuery at h
  rcases hgp : getParsed q with ⟨r, q1⟩
  rw [hgp] at h
  cases r with
  | error e => cases h
  | ok st =>
    dsimp only at h
    by_cases hw : st.any isWhereTok = true
    · rw [if_pos hw] at h
      injection h with h1 h2
      injection h1 with h1
      rw [← h1]
      exact dedupFold_allNodup _ acc hacc (whereQuery_allNodup tName q1 st)
    · rw [if_neg hw] at h
      rcases hsq : findIndexCandidatesFromSelectQuery q1 with ⟨rs, q2⟩
      rw [hsq] at h
      cases rs with
      | error e => cases h
      | ok ic =>
        dsimp only at h
        injection h with h1 h2
        injection h1 with h1
        rw [← h1]
        by_cases hne : ic.cols ≠ []
        · rw [if_pos hne]
          intro j hj
          rcases List.mem_append.mp hj with hj | hj
          · exact hacc j hj
          · rw [List.mem_singleton.mp hj]
            exact selectQuery_nodup q1 ic q2 hsq
        · rw [if_neg hne]
          exact hacc

/-- The extraction loop only accumulates duplicate-free candidates. -/
theorem findCandidatesAux_allNodup (tName : String) (qual : Option (Query → Bool)) :
    ∀ (qs : List Query) (acc res : List IndexCandidate) (qs2 : List Query),
      findCandidatesAux tName qual acc qs = (.ok res, qs2) → AllNodup acc → AllNodup res := by
  intro qs
  induction qs with
  | nil =>
    intro acc res qs2 h hacc
    injection h with h1 h2
    injection h1 with h1
    rw [← h1]
    exact hacc
  | cons q rest ih =>
    intro acc res qs2 h hacc
    simp only [findCandidatesAux] at h
    by_cases hp : passesQualifier qual q = true
    · rw [if_pos hp] at h
      rcases hpq : processQuery tName acc q with ⟨r, q1⟩
      rw [hpq] at h
      cases r with
      | error e => cases h
      | ok acc1 =>
        dsimp only at h
        rcases haux : findCandidatesAux tName qual acc1 rest with ⟨r2, rest2⟩
        rw [haux] at h
        dsimp only at h
        injection h with h1 h2
        rw [h1] at haux
        exact ih acc1 res rest2 haux (processQuery_allNodup tName acc q acc1 q1 hpq hacc)
    · rw [if_neg hp] at h
      rcases haux : findCandidatesAux tName qual acc rest with ⟨r2, rest2⟩
      rw [haux] at h
      dsimp only at h
      injection h with h1 h2
      rw [h1] at haux
      exact ih acc res rest2 haux hacc

/-- Claim C4: every candidate returned by `Table.find_index_candidates` has
a duplicate-free column sequence in order of first appearance, and
`IndexCandidate.append` of an already present column leaves the candidate
unchanged. -/
theorem index_candidate_nodup (t : Table) (qs : List Query)
    (qual : Option (Query → Bool)) (res : List IndexCandidate) (qs2 : List Query)
    (h : findIndexCandidates t qs qual = (.ok res, qs2)) :
    (∀ ic ∈ res, ic.cols.Nodup) ∧
      ∀ (ic : IndexCandidate) (c : String), c ∈ ic.cols → icAppend ic c = ic := by
  constructor
  · exact findCandidatesAux_allNodup t.name qual qs [] res qs2 h (fun _ hic => nomatch hic)
  · intro ic c hc
    simp [icAppend, hc]

/-- Witness for C4: the first candidate extracted from the first `tabNote`
test statement is duplicate-free. -/
theorem index_candidate_nodup_witness :
    ({ querySql := qNote1.sql, type := .WHERE,
       cols := ["modified", "creation"] } : IndexCandidate).cols.Nodup :=
  (index_candidate_nodup noteTable [qNote1] none
    [{ querySql := qNote1.sql, type := .WHERE, cols := ["modified", "creation"] },
     { querySql := qNote1.sql, type := .WHERE, cols := ["creation", "modified"] }]
    [{ qNote1 with cachedParsed := some stNote1 }] rfl).1
    { querySql := qNote1.sql, type := .WHERE, cols := ["modified", "creation"] }
    (List.mem_cons_self _ _)

/-- A failing `parsed` access leaves the query object untouched. -/
theorem getParsed_error_state (q q1 : Query) (e : PyErr)
    (h : getParsed q = (.error e, q1)) : q1 = q := by
  unfold getParsed at h
  rcases hcp : q.cachedParsed with _ | st <;> rw [hcp] at h
  · rcases hpr : q.parseResult with _ | ⟨st, tl⟩ <;> rw [hpr] at h
    · injection h with h1 h2
      exact h2.symm
    · cases h
  · cases h

/-- A successful `parsed` access leaves the statement cached. -/
theorem getParsed_post (q q1 : Query) (st : Statement)
    (h : getParsed q = (.ok st, q1)) : q1.cachedParsed = some st := by
  unfold getParsed at h
  rcases hcp : q.cachedParsed with _ | st0 <;> rw [hcp] at h
  · rcases hpr : q.parseResult with _ | ⟨st0, tl⟩ <;> rw [hpr] at h
    · cases h
    · injection h with h1 h2
      injection h1 with h1
      rw [← h2, h1]
  · injection h with h1 h2
    injection h1 with h1
    rw [← h2, hcp, h1]

/-- A cached statement is returned without touching the query. -/
theorem getParsed_cached (q : Query) (st : Statement) (h : q.cachedParsed = some st) :
    getParsed q = (.ok st, q) := by
  simp [getParsed, h]

/-- The `parsed` access only fills the parse cache. -/
theorem getParsed_strip (q : Query) : stripCaches (getParsed q).2 = stripCaches q := by
  unfold getParsed
  rcases hcp : q.cachedParsed with _ | st
  · rcases hpr : q.parseResult with _ | ⟨st, tl⟩ <;> simp [stripCaches, hcp, hpr]
  · simp [stripCaches, hcp]

/-- The `d_parsed` access is idempotent and only fills its cache: repeating
it returns the same parser object and the same query state, and the fields
the pipeline reads are unchanged. -/
theorem getDParsed_stable2 (q q2 : Query) (d : DStatement)
    (h : getDParsed q = (d, q2)) :
    getDParsed q2 = (d, q2) ∧ q2.cachedParsed = q.cachedParsed ∧
      q2.sql = q.sql ∧ q2.tableName = q.tableName := by
  unfold getDParsed at h
  rcases hcd : q.cachedD with _ | d0 <;> rw [hcd] at h
  · injection h with h1 h2
    subst h1
    rw [← h2]
    refine ⟨?_, by simp, by simp, by simp⟩
    simp [getDParsed]
  · injection h with h1 h2
    subst h1
    rw [← h2]
    exact ⟨by simp [getDParsed, hcd], rfl, rfl, rfl⟩

/-- The `d_parsed` access only fills its cache. -/
theorem getDParsed_strip (q : Query) : stripCaches (getDParsed q).2 = stripCaches q := by
  unfold getDParsed
  rcases hcd : q.cachedD with _ | d <;> simp [stripCaches]

/-- Projection extraction is idempotent on the query state: repeating it on
the state it left behind returns the same result and state, and the fields
the pipeline reads are unchanged. -/
theorem selectQuery_stable2 (q1 q2 : Query) (rs : Except PyErr IndexCandidate)
    (h : findIndexCandidatesFromSelectQuery q1 = (rs, q2)) :
    findIndexCandidatesFromSelectQuery q2 = (rs, q2) ∧
      q2.cachedParsed = q1.cachedParsed ∧ q2.sql = q1.sql := by
  unfold findIndexCandidatesFromSelectQuery at h ⊢
  rcases hd : getDParsed q1 with ⟨d, q2'⟩
  rw [hd] at h
  dsimp only at h
  rcases getDParsed_stable2 q1 q2' d hd with ⟨hd2, hcp, hsql, htn⟩
  rcases hqt : d.queryType with _ | t <;> rw [hqt] at h <;> dsimp only at h
  · injection h with h1 h2
    subst h2
    rw [hd2]
    simp [hqt, ← h1, hcp, hsql]
  · by_cases ht : t = QueryTypeM.select
    · subst ht
      rw [if_pos rfl] at h
      injection h with h1 h2
      subst h2
      rw [hd2]
      simp [hqt, ← h1, hcp, hsql, htn]
    · rw [if_neg ht] at h
      injection h with h1 h2
      subst h2
      rw [hd2]
      simp [hqt, ht, ← h1, hcp, hsql]

/-- Projection extraction only fills the parse caches. -/
theorem selectQuery_strip (q1 q2 : Query) (rs : Except PyErr IndexCandidate)
    (h : findIndexCandidatesFromSelectQuery q1 = (rs, q2)) :
    stripCaches q2 = stripCaches q1 := by
  unfold findIndexCandidatesFromSelectQuery at h
  rcases hd : getDParsed q1 with ⟨d, q2'⟩
  rw [hd] at h
  dsimp only at h
  have hstrip : stripCaches q2' = stripCaches q1 := by
    have := getDParsed_strip q1
    rw [hd] at this
    exact this
  rcases hqt : d.queryType with _ | t <;> rw [hqt] at h <;> dsimp only at h
  · injection h with h1 h2
    rw [← h2]
    exact hstrip
  · by_cases ht : t = QueryTypeM.select
    · rw [if_pos ht] at h
      injection h with h1 h2
      rw [← h2]
      exact hstrip
    · rw [if_neg ht] at h
      injection h with h1 h2
      rw [← h2]
      exact hstrip

/-- Processing a query is idempotent: run again on the query object the
first run left behind (with its parse caches filled), the loop body takes
the same branches, produces the same result and leaves the object
unchanged. -/
theorem processQuery_stable (tName : String) (acc : List IndexCandidate) (q : Query) :
    processQuery tName acc (processQuery tName acc q).2 = processQuery tName acc q := by
  rcases hgp : getParsed q with ⟨r, q1⟩
  cases r with
  | error e =>
    have hq1 : q1 = q := getParsed_error_state q q1 e hgp
    subst hq1
    simp [processQuery, hgp]
  | ok st =>
    have hcp1 : q1.cachedParsed = some st := getParsed_post q q1 st hgp
    have hgp2 : getParsed q1 = (.ok st, q1) := getParsed_cached q1 st hcp1
    by_cases hw : st.any isWhereTok = true
    · simp [processQuery, hgp, hgp2, hw]
    · rcases hsq : findIndexCandidatesFromSelectQuery q1 with ⟨rs, q2⟩
      rcases selectQuery_stable2 q1 q2 rs hsq with ⟨hsq2, hcp2, _⟩
      have hgp3 : getParsed q2 = (.ok st, q2) :=
        getParsed_cached q2 st (by rw [hcp2, hcp1])
      cases rs with
      | error e => simp [processQuery, hgp, hgp2, hgp3, hw, hsq, hsq2]
      | ok ic => simp [processQuery, hgp, hgp2, hgp3, hw, hsq, hsq2]

/-- Processing a query only fills its parse caches. -/
theorem processQuery_strip (tName : String) (acc : List IndexCandidate) (q : Query) :
    stripCaches (processQuery tName acc q).2 = stripCaches q := by
  have h1 := getParsed_strip q
  rcases hgp : getParsed q with ⟨r, q1⟩
  rw [hgp] at h1
  cases r with
  | error e => simp [processQuery, hgp, h1]
  | ok st =>
    by_cases hw : st.any isWhereTok = true
    · simp [processQuery, hgp, hw, h1]
    · rcases hsq : findIndexCandidatesFromSelectQuery q1 with ⟨rs, q2⟩
      have h2 : stripCaches q2 = stripCaches q1 := selectQuery_strip q1 q2 rs hsq
      cases rs with
      | error e => simp [processQuery, hgp, hw, hsq, h2, h1]
      | ok ic => simp [processQuery, hgp, hw, hsq, h2, h1]

/-- A cache-blind qualifier takes the same decision on a query before and
after its parse caches are filled. -/
theorem passesQualifier_congr (qual : Option (Query → Bool)) (h : CacheBlind qual)
    (q1 q2 : Query) (hs : stripCaches q1 = stripCaches q2) :
    passesQualifier qual q1 = passesQualifier qual q2 := by
  cases qual with
  | none => rfl
  | some f => exact h f rfl q1 q2 hs

/-- The extraction loop is idempotent on result and state. -/
theorem findCandidatesAux_stable (tName : String) (qual : Option (Query → Bool))
    (hq : CacheBlind qual) :
    ∀ (qs : List Query) (acc : List IndexCandidate),
      findCandidatesAux tName qual acc (findCandidatesAux tName qual acc qs).2 =
        findCandidatesAux tName qual acc qs := by
  intro qs
  induction qs with
  | nil => intro acc; rfl
  | cons q rest ih =>
    intro acc
    by_cases hp : passesQualifier qual q = true
    · rcases hpq : processQuery tName acc q with ⟨r, q1⟩
      have hstrip : stripCaches q1 = stripCaches q := by
        have := processQuery_strip tName acc q
        rw [hpq] at this
        exact this
      have hp1 : passesQualifier qual q1 = true := by
        rw [passesQualifier_congr qual hq q1 q hstrip]
        exact hp
      have hst : processQuery tName acc q1 = (r, q1) := by
        have := processQuery_stable tName acc q
        rw [hpq] at this
        exact this
      cases r with
      | error e =>
        simp [findCandidatesAux, hp, hpq, hp1, hst]
      | ok acc1 =>
        rcases haux : findCandidatesAux tName qual acc1 rest with ⟨r2, rest2⟩
        have hih : findCandidatesAux tName qual acc1 rest2 = (r2, rest2) := by
          have := ih acc1
          rw [haux] at this
          exact this
        simp [findCandidatesAux, hp, hpq, hp1, hst, haux, hih]
    · rcases haux : findCandidatesAux tName qual acc rest with ⟨r2, rest2⟩
      have hih : findCandidatesAux tName qual acc rest2 = (r2, rest2) := by
        have := ih acc
        rw [haux] at this
        exact this
      simp [findCandidatesAux, hp, haux, hih]

/-- Claim C9: candidate extraction is idempotent — run again over the query
objects as the first run left them (parse caches filled), with any
cache-blind qualifier, `Table.find_index_candidates` returns the identical
candidate list (and the identical query states). -/
theorem find_index_candidates_idempotent (t : Table) (qs : List Query)
    (qual : Option (Query → Bool)) (hq : CacheBlind qual) :
    findIndexCandidates t ((findIndexCandidates t qs qual).2) qual =
      findIndexCandidates t qs qual :=
  findCandidatesAux_stable t.name qual hq qs []

/-- Witness for C9 at a concrete batch with no qualifier. -/
theorem find_index_candidates_idempotent_witness :
    findIndexCandidates noteTable ((findIndexCandidates noteTable [qNote1, qQG1] none).2) none =
      findIndexCandidates noteTable [qNote1, qQG1] none :=
  find_index_candidates_idempotent noteTable [qNote1, qQG1] none (fun _ hf => nomatch hf)
